import Mathlib

/-!
Verification development for the Placement Archive AI service
(`ai-service/rag_pipeline.py`, `ai-service/config.py`).

The Python code is shallowly embedded as follows:

* text is modelled as `List Char` (`Str`); Python string operations
  (`str.strip`, slicing, `str.rfind`, `str.lower`, substring `in`)
  are modelled by executable functions with Python's index semantics
  (negative indices wrap, out-of-range indices clamp);
* the regular expressions of `_preprocess_text` are modelled at the
  character level over ASCII (`\s+` collapse, `[^\w\s.,!?-]` removal);
* the FAISS index is reduced to what the pipeline observes of it: its
  vector count `ntotal`; the embedding model is an opaque, possibly
  failing function (one vector per input text); FAISS `search` results
  are an arbitrary list of `(score, slot)` candidates handed to `query`
  (scores as rationals; slot `-1` is the FAISS padding sentinel);
* Python dicts `id_map` / `metadata` are modelled as functions into
  `Option`; fallible code returns `Except`; `logger` calls are collected
  as a list of messages;
* the `while` loop of `_chunk_document` is modelled with explicit fuel
  (one unit per iteration), since its termination is exactly what is at
  stake in one of the claims.
-/

set_option maxRecDepth 100000

/-- Python strings, modelled as character lists. -/
abbrev Str := List Char

/-- The settings of `ai-service/config.py` that the retrieval engine reads
(`Settings` class, defaults as in the source). -/
structure Settings where
  EMBEDDING_MODEL : Str
  EMBEDDING_DIMENSION : Nat
  CHUNK_SIZE : Nat
  CHUNK_OVERLAP : Nat
  TOP_K_DEFAULT : Nat
  SIMILARITY_THRESHOLD : ℚ

/-- `config.settings` (`config.py`, lines 9-49). -/
def settings : Settings :=
  { EMBEDDING_MODEL := ("sentence-transformers/all-MiniLM-L6-v2").data
    EMBEDDING_DIMENSION := 384
    CHUNK_SIZE := 512
    CHUNK_OVERLAP := 50
    TOP_K_DEFAULT := 5
    SIMILARITY_THRESHOLD := 0 }

/-- Python slice-index semantics: a (possibly negative) int index `i`
into a sequence of length `n` becomes the clamped natural index used by
slicing and by `str.rfind` bounds. -/
def pyIdx (n : Nat) (i : Int) : Nat :=
  if i < 0 then ((n : Int) + i).toNat else min i.toNat n

/-- Python slice `doc[i:j]`. -/
def pySlice (doc : Str) (i j : Int) : Str :=
  (doc.take (pyIdx doc.length j)).drop (pyIdx doc.length i)

/-- Python `str.strip()` (whitespace from both ends; ASCII model). -/
def pyStrip (l : Str) : Str :=
  ((l.dropWhile Char.isWhitespace).reverse.dropWhile Char.isWhitespace).reverse

/-- Python `doc.rfind(c, i, j)`: the largest index `k` with
`pyIdx i ≤ k < pyIdx j` and `doc[k] = c`, else `-1`. -/
def pyRfindChar (doc : Str) (c : Char) (i j : Int) : Int :=
  let a := pyIdx doc.length i
  let b := pyIdx doc.length j
  match doc.enum.foldl
      (fun best p => if decide (a ≤ p.1) && decide (p.1 < b) && (p.2 == c)
        then some p.1 else best) none with
  | some k => (k : Int)
  | none => -1

/-- Helper for `re.sub(r'\s+', ' ', text)`: each maximal whitespace run
becomes a single space.  The boolean argument records whether the
previous character was whitespace. -/
def collapseWsAux : Bool → Str → Str
  | _, [] => []
  | prevWs, c :: rest =>
    if c.isWhitespace then
      if prevWs then collapseWsAux true rest
      else ' ' :: collapseWsAux true rest
    else c :: collapseWsAux false rest

/-- Characters kept by `re.sub(r'[^\w\s.,!?-]', '', text)` (ASCII model of
`\w` and `\s`). -/
def keepChar (c : Char) : Bool :=
  c.isAlphanum || (c == '_') || c.isWhitespace ||
    (c == '.') || (c == ',') || (c == '!') || (c == '?') || (c == '-')

/-- `RAGPipeline._preprocess_text` (`rag_pipeline.py`, lines 90-99). -/
def preprocessText (text : Str) : Str :=
  if text = [] then []
  else pyStrip ((collapseWsAux false text).filter keepChar)

/-- A chunk as produced by `RAGPipeline._chunk_document`
(`{'text': ..., 'experience_id': ..., 'chunk_index': ...}`). -/
structure Chunk where
  text : Str
  experience_id : Str
  chunk_index : Nat
deriving DecidableEq, Repr

/-- The window-end computation of one `_chunk_document` iteration
(`rag_pipeline.py`, lines 160-166): `end = start + CHUNK_SIZE`, snapped
back to just after the last `'.'` in `[start, end)` when that period lies
strictly past the window midpoint. -/
def chunkEnd (cs : Nat) (doc : Str) (start : Int) : Int :=
  if start + (cs : Int) < (doc.length : Int) then
    if start + ((cs / 2 : Nat) : Int) < pyRfindChar doc '.' start (start + (cs : Int)) then
      pyRfindChar doc '.' start (start + (cs : Int)) + 1
    else start + (cs : Int)
  else start + (cs : Int)

/-- The `while start < len(document)` loop of `_chunk_document`
(`rag_pipeline.py`, lines 159-177), with explicit fuel: `none` means the
fuel was exhausted with the loop still running.  `start` is an `Int`
because Python's `start = end - overlap` can go negative. -/
def chunkLoop (cs ov : Nat) (doc : Str) (eid : Str) :
    Nat → Int → Nat → List Chunk → Option (List Chunk)
  | 0, start, _, acc =>
    if start < (doc.length : Int) then none else some acc
  | fuel + 1, start, cidx, acc =>
    if start < (doc.length : Int) then
      let e := chunkEnd cs doc start
      let ctext := pyStrip (pySlice doc start e)
      if ctext = [] then
        chunkLoop cs ov doc eid fuel (e - (ov : Int)) cidx acc
      else
        chunkLoop cs ov doc eid fuel (e - (ov : Int)) (cidx + 1)
          (acc ++ [⟨ctext, eid, cidx⟩])
    else some acc

/-- `RAGPipeline._chunk_document` (`rag_pipeline.py`, lines 143-179),
parameterised by the configured chunk size and overlap and by loop fuel. -/
def chunkDocument (cs ov fuel : Nat) (document eid : Str) : Option (List Chunk) :=
  if document.length ≤ cs then some [⟨document, eid, 0⟩]
  else chunkLoop cs ov document eid fuel 0 0 []

/-- `_chunk_document` terminates on `document` under configuration
`(cs, ov)`: some finite fuel suffices. -/
def chunkTerminates (cs ov : Nat) (document eid : Str) : Prop :=
  ∃ fuel out, chunkDocument cs ov fuel document eid = some out

/-- `_chunk_document` as called by the pipeline, with the repository
configuration `CHUNK_SIZE = 512`, `CHUNK_OVERLAP = 50`.  The fuel
`len/208 + 1` provably suffices for this configuration (every iteration
advances `start` by at least `512/2 + 2 - 50 = 208`); the `none` branch
is unreachable. -/
def chunkDocumentSettings (document eid : Str) : List Chunk :=
  match chunkDocument settings.CHUNK_SIZE settings.CHUNK_OVERLAP
      (document.length / 208 + 1) document eid with
  | some cs => cs
  | none => []

/-- A dict field as `dict.get(key, default)` observes it: the key can be
absent from the dict (`missing`), present with Python `None` — which is
what a SQL NULL becomes, since `database.py` always builds the row dicts
with every selected column present — or present with a value.  The
distinction is observable in `_create_experience_document`: a missing
key renders the `get` default, while a present `None` renders as the
string `None` in an f-string. -/
inductive PyField (α : Type) where
  | missing
  | null
  | val (a : α)
deriving DecidableEq

/-- `experience.get(key, default)` rendered into an f-string: the
default for a missing key, the string `None` for a present NULL, the
string itself for a present value. -/
def renderGetStr (v : PyField Str) (dflt : Str) : Str :=
  match v with
  | .missing => dflt
  | .null => ("None").data
  | .val s => s

/-- `experience.get(key, default)` for an int column rendered into an
f-string (ints print in decimal; a present NULL prints `None`). -/
def renderGetInt (v : PyField Int) (dflt : Str) : Str :=
  match v with
  | .missing => dflt
  | .null => ("None").data
  | .val n => (toString n).data

/-- `experience.get(key)` with no default: the value, or Python `None`
for both a missing key and a present NULL (this is what
`add_experience` stores into metadata). -/
def pyGet : PyField Str → Option Str
  | .val s => some s
  | _ => none

/-- `experience.get(key)` for an int column. -/
def pyGetInt : PyField Int → Option Int
  | .val n => some n
  | _ => none

/-- One entry of `experience.get('rounds', [])` as read by
`_create_experience_document`.  `round_number`/`round_type` are read
with `.get(key, default)` where missing key and NULL render differently,
hence `PyField`; `description` is only truthiness-tested and then used,
where a missing key and a NULL behave identically, hence `Option` with
`none` covering both. -/
structure RoundInfo where
  round_number : PyField Int
  round_type : PyField Str
  description : Option Str

/-- One entry of `experience.get('questions', [])`; `question_type` and
`topic` are rendered via `.get(key, '')` (missing key and NULL differ),
while `question_text`/`answer_approach` flow through truthiness or
`_preprocess_text` where missing and NULL behave identically. -/
structure QuestionInfo where
  question_text : Option Str
  question_type : PyField Str
  topic : PyField Str
  answer_approach : Option Str

/-- An experience record as consumed by the pipeline (the dict produced
by `database.get_experience_by_id`).  The three header fields are read
with `.get(key, 'Unknown')`, where a missing key and a present NULL
render differently, hence `PyField`; the remaining optional fields are
truthiness-guarded, where missing and NULL behave identically, hence
`Option` with `none` covering both. -/
structure Experience where
  id : Str
  company_name : PyField Str
  role : PyField Str
  interview_year : PyField Int
  offer_status : Option Str
  difficulty_level : Option Int
  tips : Option Str
  rounds : List RoundInfo
  questions : List QuestionInfo

/-- `experience.get(key, '')`. -/
def getStrD (v : Option Str) : Str :=
  match v with
  | some s => s
  | none => []

/-- Python truthiness of an optional string (`if experience.get(k):`):
true iff present and non-empty. -/
def optStrTruthy : Option Str → Bool
  | some s => !(s.isEmpty)
  | none => false

/-- Python truthiness of an optional int: true iff present and nonzero. -/
def optIntTruthy : Option Int → Bool
  | some n => !(n == 0)
  | none => false

/-- The part built for one round (`rag_pipeline.py`, lines 124-128). -/
def roundPart (r : RoundInfo) : Str :=
  let rt := ("Round ").data ++ renderGetInt r.round_number (("?").data) ++
    (": ").data ++ renderGetStr r.round_type (("Unknown").data)
  if optStrTruthy r.description then
    rt ++ (" - ").data ++ preprocessText (getStrD r.description)
  else rt

/-- The parts built for one question (`rag_pipeline.py`, lines 131-139):
nothing if the preprocessed question text is empty, else the question
line plus, when present and non-empty, the approach line. -/
def questionParts (q : QuestionInfo) : List Str :=
  let qtext := preprocessText (getStrD q.question_text)
  if qtext = [] then []
  else
    (("Question (").data ++ renderGetStr q.question_type [] ++ (", ").data ++
      renderGetStr q.topic [] ++ ("): ").data ++ qtext) ::
    (if optStrTruthy q.answer_approach then
      [("Approach: ").data ++ preprocessText (getStrD q.answer_approach)]
    else [])

/-- The `parts` list of `_create_experience_document`
(`rag_pipeline.py`, lines 106-139), in source order: three header lines
(with `'Unknown'` defaults), then the conditional result / difficulty /
tips lines, then one part per round, then the question parts. -/
def experienceParts (e : Experience) : List Str :=
  (("Company: ").data ++ renderGetStr e.company_name (("Unknown").data)) ::
  (("Role: ").data ++ renderGetStr e.role (("Unknown").data)) ::
  (("Year: ").data ++ renderGetInt e.interview_year (("Unknown").data)) ::
  ((if optStrTruthy e.offer_status then
      [("Result: ").data ++ getStrD e.offer_status]
    else []) ++
   (if optIntTruthy e.difficulty_level then
      [("Difficulty: ").data ++
        (toString (e.difficulty_level.getD 0)).data ++ ("/5").data]
    else []) ++
   (if optStrTruthy e.tips then
      [("Tips: ").data ++ preprocessText (getStrD e.tips)]
    else []) ++
   e.rounds.map roundPart ++
   e.questions.flatMap questionParts)

/-- `"\n".join(parts)`. -/
def joinNl : List Str → Str
  | [] => []
  | [p] => p
  | p :: q :: rest => p ++ '\n' :: joinNl (q :: rest)

/-- `RAGPipeline._create_experience_document`
(`rag_pipeline.py`, lines 101-141). -/
def createExperienceDocument (e : Experience) : Str :=
  joinNl (experienceParts e)

/-- One value of `RAGPipeline.metadata` (`rag_pipeline.py`, lines
222-227): per-record metadata; `company`, `role`, `year` are stored
unvalidated from `experience.get(...)`, hence possibly `None`. -/
structure MetaEntry where
  company : Option Str
  role : Option Str
  year : Option Int
  document : Str
deriving DecidableEq

/-- The mutable state of `RAGPipeline` observed by the claims: the FAISS
index reduced to its vector count `ntotal`, plus the two dicts `id_map`
(FAISS slot -> experience id) and `metadata` (experience id -> entry),
modelled as functions into `Option`. -/
structure PipelineState where
  ntotal : Nat
  id_map : Nat → Option Str
  metadata : Str → Option MetaEntry

/-- `RAGPipeline._create_index` (`rag_pipeline.py`, lines 54-60): empty
index, empty dicts. -/
def emptyState : PipelineState :=
  { ntotal := 0, id_map := fun _ => none, metadata := fun _ => none }

/-- `RAGPipeline.get_index_size` (`rag_pipeline.py`, lines 82-84). -/
def getIndexSize (st : PipelineState) : Nat := st.ntotal

/-- Dict assignment `m[k] = v`. -/
def upd {α β : Type} [DecidableEq α] (m : α → Option β) (k : α) (v : β) :
    α → Option β :=
  fun k' => if k' = k then some v else m k'

/-- The opaque embedding model: `_embed_texts` returns one vector per
input text, or raises.  Vector contents are irrelevant to the claims, so
only success/failure (with the exception message) is modelled. -/
abbrev Emb := List Str → Except Str Unit

/-- The chunk texts a record is embedded from
(`texts = [chunk['text'] for chunk in chunks]`). -/
def textsOf (e : Experience) : List Str :=
  (chunkDocumentSettings (createExperienceDocument e) e.id).map Chunk.text

/-- The state after the successful body of `add_experience`
(`rag_pipeline.py`, lines 212-227): `index.add` appends the chunk
vectors (`ntotal` grows by the chunk count), the `for i, chunk` loop
writes `id_map[start_id + i] = experience['id']`, and the metadata entry
for the record is overwritten with the unvalidated `experience.get`
fields plus a 500-character document snippet. -/
def addNewState (st : PipelineState) (e : Experience) : PipelineState :=
  let document := createExperienceDocument e
  let chunks := chunkDocumentSettings document e.id
  { ntotal := st.ntotal + chunks.length
    id_map := (List.range chunks.length).foldl
      (fun m i => upd m (st.ntotal + i) e.id) st.id_map
    metadata := upd st.metadata e.id
      ⟨pyGet e.company_name, pyGet e.role, pyGetInt e.interview_year,
        document.take 500⟩ }

/-- `RAGPipeline.add_experience` (`rag_pipeline.py`, lines 194-234).
Returns the new state (or the propagated exception) together with the
log messages the call emits, in order.  The early return on an empty
document leaves the state unchanged; an embedding failure is logged and
re-raised before the index is touched. -/
def addExperience (emb : Emb) (st : PipelineState) (e : Experience) :
    Except Str PipelineState × List Str :=
  let document := createExperienceDocument e
  if document = [] then
    (.ok st, [("Empty document for experience ").data ++ e.id])
  else
    match emb (textsOf e) with
    | .error msg => (.error msg, [("Failed to add experience: ").data ++ msg])
    | .ok _ =>
      (.ok (addNewState st e),
        [("Index saved to disk").data,
         ("Added experience ").data ++ e.id ++ (" with ").data ++
           (toString (chunkDocumentSettings document e.id).length).data ++
           (" chunks").data])

/-- `RAGPipeline.remove_experience` (`rag_pipeline.py`, lines 236-245):
delete the record's metadata entry, drop every `id_map` entry whose
value is the record id, leave the FAISS index itself untouched. -/
def removeExperience (st : PipelineState) (eid : Str) :
    PipelineState × List Str :=
  ({ ntotal := st.ntotal
     id_map := fun k => match st.id_map k with
       | some v => if v = eid then none else some v
       | none => none
     metadata := fun r => if r = eid then none else st.metadata r },
   [("Marked experience ").data ++ eid ++ (" for removal").data])

/-- One iteration of the `for experience in experiences` loop of
`reindex_all` (`rag_pipeline.py`, lines 258-262): a failing
`add_experience` is caught, logged, and skipped. -/
def reindexStep (emb : Emb) (p : PipelineState × List Str) (e : Experience) :
    PipelineState × List Str :=
  match addExperience emb p.1 e with
  | (.ok st', l) => (st', p.2 ++ l)
  | (.error msg, l) =>
    (p.1, p.2 ++ l ++
      [("Failed to index experience ").data ++ e.id ++ (": ").data ++ msg])

/-- `RAGPipeline.reindex_all` (`rag_pipeline.py`, lines 247-265), with
the list of approved experiences (the database call) as input. -/
def reindexAll (emb : Emb) (experiences : List Experience) :
    PipelineState × List Str :=
  let p := experiences.foldl (reindexStep emb)
    (emptyState,
      [("Starting full reindex...").data,
       ("Created new FAISS index").data,
       ("Found ").data ++ (toString experiences.length).data ++
         (" experiences to index").data])
  (p.1, p.2 ++
    [("Index saved to disk").data,
     ("Reindex complete. Total vectors: ").data ++ (toString p.1.ntotal).data])

/-- Whether `add_experience` for `e` succeeds (state-independent: the
only failure source is the embedding call, whose input depends only on
the record). -/
def addOk (emb : Emb) (e : Experience) : Bool :=
  match (addExperience emb emptyState e).1 with
  | .ok _ => true
  | .error _ => false

/-- One element of `query`'s result `sources` list
(`rag_pipeline.py`, lines 316-323). -/
structure Source where
  id : Str
  score : ℚ
  snippet : Str
  company : Option Str
  role : Option Str
  year : Option Int
deriving DecidableEq

/-- `self.id_map.get(idx)` for a FAISS result index (an int; negative
keys are absent from the dict). -/
def idMapGet (st : PipelineState) (idx : Int) : Option Str :=
  if idx < 0 then none else st.id_map idx.toNat

/-- Python `str.lower()` (ASCII model). -/
def lowerStr (s : Str) : Str := s.map Char.toLower

/-- Python substring test `p in s` (decidable list-infix). -/
def isSubstr (p s : Str) : Bool := decide (p <:+: s)

/-- The company filter check of `query` (`rag_pipeline.py`, lines
310-311): `company and company.lower() not in meta.get('company',
'').lower()`.  A falsy (absent or empty) filter passes everything; a
missing metadata entry yields `''`; a metadata entry whose `company`
value is `None` makes `None.lower()` raise `AttributeError`.  Returns
whether the candidate passes (i.e. is NOT skipped). -/
def companyCheckPass : Option Str → Option MetaEntry → Except Str Bool
  | none, _ => .ok true
  | some f, meta =>
    if f = [] then .ok true
    else
      match meta with
      | none => .ok (isSubstr (lowerStr f) (lowerStr []))
      | some m =>
        match m.company with
        | none => .error ("AttributeError: NoneType object has no attribute lower").data
        | some c => .ok (isSubstr (lowerStr f) (lowerStr c))

/-- The year filter of `query` (`rag_pipeline.py`, line 312): `year and
meta.get('year') != year` — true iff the candidate is skipped.  A falsy
(absent or zero) filter skips nothing. -/
def yearRejects : Option Int → Option MetaEntry → Bool
  | none, _ => false
  | some y, meta =>
    if y = 0 then false
    else
      match meta with
      | none => true
      | some m => !(m.year == some y)

/-- The source dict appended by `query` (`rag_pipeline.py`, lines
316-323): `meta.get(...)` fields plus a 300-character snippet. -/
def mkSource (eid : Str) (dist : ℚ) (meta : Option MetaEntry) : Source :=
  { id := eid
    score := dist
    snippet := (match meta with | some m => m.document | none => []).take 300
    company := meta.bind MetaEntry.company
    role := meta.bind MetaEntry.role
    year := meta.bind MetaEntry.year }

/-- The `for i, (dist, idx) in enumerate(...)` loop of `query`
(`rag_pipeline.py`, lines 300-326), over the list of `(score, slot)`
candidates returned by `index.search`, carrying `seen_experiences` and
`sources`.  Skips: FAISS padding / below-threshold scores; slots absent
from `id_map` (tombstoned) or with a falsy id; ids already seen; filter
failures.  Appends otherwise and breaks once `top_k` sources are
collected.  The company filter can raise (see `companyCheckPass`). -/
def processCandidates (st : PipelineState) (company : Option Str)
    (year : Option Int) (top_k : Nat) :
    List (ℚ × Int) → List Str → List Source → Except Str (List Source)
  | [], _, sources => .ok sources
  | (dist, idx) :: rest, seen, sources =>
    if idx = -1 ∨ dist < settings.SIMILARITY_THRESHOLD then
      processCandidates st company year top_k rest seen sources
    else
      match idMapGet st idx with
      | none => processCandidates st company year top_k rest seen sources
      | some eid =>
        if eid = [] ∨ eid ∈ seen then
          processCandidates st company year top_k rest seen sources
        else
          match companyCheckPass company (st.metadata eid) with
          | .error err => .error err
          | .ok pass =>
            if !pass then processCandidates st company year top_k rest seen sources
            else if yearRejects year (st.metadata eid) then
              processCandidates st company year top_k rest seen sources
            else
              let sources' := sources ++ [mkSource eid dist (st.metadata eid)]
              if top_k ≤ sources'.length then .ok sources'
              else processCandidates st company year top_k rest (eid :: seen) sources'

/-- `search_k = min(top_k * 3, self.index.ntotal) if self.index.ntotal >
0 else 0` (`rag_pipeline.py`, line 290). -/
def searchK (st : PipelineState) (top_k : Nat) : Nat :=
  if 0 < st.ntotal then min (top_k * 3) st.ntotal else 0

/-- `RAGPipeline.query` (`rag_pipeline.py`, lines 271-344), restricted
to the `sources` component of its result (answer/confidence/trend
composition consumes `sources` without changing it and is out of scope,
spec section 1).  `cands` abstracts the FAISS search output; the code
consumes at most `search_k` ranked candidates.  An empty search or an
empty surviving source list yields the empty-response sources `[]`. -/
def query (st : PipelineState) (cands : List (ℚ × Int))
    (company : Option Str) (year : Option Int) (top_k : Nat) :
    Except Str (List Source) :=
  let sk := searchK st top_k
  if sk = 0 then .ok []
  else processCandidates st company year top_k (cands.take sk) [] []

/-- Specification-side predicate (spec sections 4.4 and 8): a candidate
`(score, slot)` survives the threshold, tombstone and filter checks of
the retriever, with the crashing `None`-company case counted as not
passing.  Used to state the dedup/first-wins refinement of `query`. -/
def passesB (st : PipelineState) (company : Option Str) (year : Option Int)
    (cand : ℚ × Int) : Bool :=
  if cand.2 = -1 ∨ cand.1 < settings.SIMILARITY_THRESHOLD then false
  else
    match idMapGet st cand.2 with
    | none => false
    | some eid =>
      if eid = [] then false
      else
        (match companyCheckPass company (st.metadata eid) with
         | .error _ => false
         | .ok b => b) &&
        !(yearRejects year (st.metadata eid))

/-- Specification-side view of a passing candidate as a source. -/
def mkCand (st : PipelineState) (cand : ℚ × Int) : Source :=
  match idMapGet st cand.2 with
  | some eid => mkSource eid cand.1 (st.metadata eid)
  | none => mkSource [] cand.1 none

/-- Specification-side dedup (spec section 4.4): keep the first source
per record id, given an already-seen id list. -/
def dedupFirstAux : List Str → List Source → List Source
  | _, [] => []
  | seen, s :: rest =>
    if s.id ∈ seen then dedupFirstAux seen rest
    else s :: dedupFirstAux (s.id :: seen) rest

/-- An embedding model that always succeeds. -/
def embAlwaysOk : Emb := fun _ => .ok ()

/-- Concrete document refuting termination of the chunk loop for the
configuration `max_size = 512`, `overlap = 300` (overlap < max_size):
its only period sits at index 299, so every iteration snaps `end` to
300 and resets `start` to `300 - 300 = 0`. -/
def bad3doc : Str := List.replicate 299 'a' ++ '.' :: List.replicate 300 'a'

/-- The chunk text emitted by each (endlessly repeating) iteration of
the loop on `bad3doc`. -/
def c3text : Str := List.replicate 299 'a' ++ ['.']

/-- A record whose dict carries none of the optional keys at all. -/
def e0 : Experience :=
  { id := ("e0").data, company_name := .missing, role := .missing
    interview_year := .missing, offer_status := none, difficulty_level := none
    tips := none, rounds := [], questions := [] }

/-- A record whose dict carries the header keys with NULL values — the
shape `database.py` actually produces for NULL columns, since it always
selects the columns into the dict. -/
def e0null : Experience :=
  { id := ("e0").data, company_name := .null, role := .null
    interview_year := .null, offer_status := none, difficulty_level := none
    tips := none, rounds := [], questions := [] }

/-- A small record used for the double-add counterexample. -/
def c2exp : Experience :=
  { id := ("r1").data, company_name := .val (("Acme").data), role := .missing
    interview_year := .missing, offer_status := none, difficulty_level := none
    tips := none, rounds := [], questions := [] }

/-- Metadata of a concrete indexed record for company Acme. -/
def mAcme : MetaEntry :=
  { company := some ("Acme").data, role := some ("SWE").data
    year := some 2023, document := ("Acme interview doc").data }

/-- Metadata of a concrete indexed record for company Globex. -/
def mGlobex : MetaEntry :=
  { company := some ("Globex").data, role := some ("Analyst").data
    year := some 2024, document := ("Globex interview doc").data }

/-- A concrete two-record index state: slot 0 -> r1 (Acme), slot 1 ->
r2 (Globex). -/
def stW : PipelineState :=
  { ntotal := 2
    id_map := fun k =>
      if k = 0 then some (("r1").data)
      else if k = 1 then some (("r2").data) else none
    metadata := fun r =>
      if r = ("r1").data then some mAcme
      else if r = ("r2").data then some mGlobex else none }

/-- A metadata entry whose `company` value is `None` (built by
`add_experience` from a record lacking `company_name`). -/
def mNoneCompany : MetaEntry :=
  { company := none, role := none, year := none, document := [] }

/-- A concrete index state containing a record with `None` company. -/
def stW10 : PipelineState :=
  { ntotal := 1
    id_map := fun k => if k = 0 then some (("rX").data) else none
    metadata := fun r => if r = ("rX").data then some mNoneCompany else none }

/-- A record (600-character tips, no period, no letter B, no digit 1 in
any log it produces) whose document chunks into exactly 2 chunks. -/
def c9rA : Experience :=
  { id := ("rA").data, company_name := .val (("Acme").data)
    role := .val (("Dev").data), interview_year := .val 2023
    offer_status := none, difficulty_level := none
    tips := some (List.replicate 600 'a'), rounds := [], questions := [] }

/-- A record whose document contains the letter B, making `c9emb` fail. -/
def c9rB : Experience :=
  { id := ("rB").data, company_name := .val (("Beta").data), role := .missing
    interview_year := .missing, offer_status := none, difficulty_level := none
    tips := none, rounds := [], questions := [] }

/-- An embedding model that raises exactly on texts containing `B`. -/
def c9emb : Emb := fun ts =>
  if ts.any (fun t => t.contains 'B') then .error (("boom").data) else .ok ()

/-- The per-record failure log prefix of `reindex_all`. -/
def failPre : Str := ("Failed to index experience ").data

theorem chunkLoop_zero (cs ov : Nat) (doc eid : Str) (start : Int)
    (cidx : Nat) (acc : List Chunk) :
    chunkLoop cs ov doc eid 0 start cidx acc =
      if start < (doc.length : Int) then none else some acc := rfl

theorem chunkLoop_succ (cs ov : Nat) (doc eid : Str) (f : Nat) (start : Int)
    (cidx : Nat) (acc : List Chunk) :
    chunkLoop cs ov doc eid (f + 1) start cidx acc =
      if start < (doc.length : Int) then
        if pyStrip (pySlice doc start (chunkEnd cs doc start)) = [] then
          chunkLoop cs ov doc eid f (chunkEnd cs doc start - (ov : Int)) cidx acc
        else
          chunkLoop cs ov doc eid f (chunkEnd cs doc start - (ov : Int)) (cidx + 1)
            (acc ++ [⟨pyStrip (pySlice doc start (chunkEnd cs doc start)), eid, cidx⟩])
      else some acc := rfl

theorem chunkEnd_ge (doc : Str) (start : Int) :
    start + 258 ≤ chunkEnd 512 doc start := by
  unfold chunkEnd
  norm_num
  split_ifs with h1 h2 <;> omega

theorem chunkLoop_some_512_50 (doc eid : Str) :
    ∀ (fuel : Nat) (start : Int) (cidx : Nat) (acc : List Chunk),
      ((doc.length : Int) - start).toNat ≤ 208 * fuel →
      ∃ r, chunkLoop 512 50 doc eid fuel start cidx acc = some r ∧
        r.length ≤ acc.length + fuel := by
  intro fuel
  induction fuel with
  | zero =>
    intro start cidx acc h
    refine ⟨acc, ?_, by omega⟩
    rw [chunkLoop_zero, if_neg (by omega)]
  | succ f ih =>
    intro start cidx acc h
    by_cases hlt : start < (doc.length : Int)
    · have he := chunkEnd_ge doc start
      have hm : (((doc.length : Int)) - (chunkEnd 512 doc start - ((50 : Nat) : Int))).toNat
          ≤ 208 * f := by omega
      by_cases hc : pyStrip (pySlice doc start (chunkEnd 512 doc start)) = []
      · obtain ⟨r, hr, hl⟩ := ih (chunkEnd 512 doc start - ((50 : Nat) : Int)) cidx acc hm
        refine ⟨r, ?_, by omega⟩
        rw [chunkLoop_succ, if_pos hlt, if_pos hc]
        exact hr
      · obtain ⟨r, hr, hl⟩ := ih (chunkEnd 512 doc start - ((50 : Nat) : Int)) (cidx + 1)
          (acc ++ [⟨pyStrip (pySlice doc start (chunkEnd 512 doc start)), eid, cidx⟩]) hm
        refine ⟨r, ?_, ?_⟩
        · rw [chunkLoop_succ, if_pos hlt, if_neg hc]
          exact hr
        · simp only [List.length_append, List.length_singleton] at hl
          omega
    · exact ⟨acc, by rw [chunkLoop_succ, if_neg hlt], by omega⟩

theorem bad3_len : bad3doc.length = 600 := by decide

theorem bad3_end : chunkEnd 512 bad3doc 0 = 300 := by decide

theorem bad3_strip : pyStrip (pySlice bad3doc 0 300) = c3text := by decide

theorem c3text_ne : c3text ≠ [] := by decide

theorem c3_step (f cidx : Nat) (acc : List Chunk) :
    chunkLoop 512 300 bad3doc (("e1").data) (f + 1) 0 cidx acc =
      chunkLoop 512 300 bad3doc (("e1").data) f 0 (cidx + 1)
        (acc ++ [⟨c3text, ("e1").data, cidx⟩]) := by
  rw [chunkLoop_succ, if_pos (by rw [bad3_len]; norm_num), bad3_end, bad3_strip,
    if_neg c3text_ne]
  norm_num

theorem c3_loop_none : ∀ (f cidx : Nat) (acc : List Chunk),
    chunkLoop 512 300 bad3doc (("e1").data) f 0 cidx acc = none := by
  intro f
  induction f with
  | zero =>
    intro cidx acc
    rw [chunkLoop_zero, if_pos (by rw [bad3_len]; norm_num)]
  | succ f ih =>
    intro cidx acc
    rw [c3_step]
    exact ih _ _

/-- C3, counterexample: the claim quantifies over every configuration
with `overlap < max_size`, but for `max_size = 512`, `overlap = 300`
(which satisfies `300 < 512`) the loop does not terminate on `bad3doc`:
the sentence-boundary snap moves `end` back to 300 on every iteration,
so `start = end - overlap` returns to 0 forever. -/
theorem chunk_loop_diverges_for_large_overlap :
    300 < 512 ∧ ¬ chunkTerminates 512 300 bad3doc (("e1").data) := by
  refine ⟨by norm_num, ?_⟩
  rintro ⟨fuel, out, h⟩
  unfold chunkDocument at h
  rw [if_neg (by rw [bad3_len]; norm_num), c3_loop_none] at h
  exact Option.noConfusion h

/-- C3, amended: with the repository configuration `max_size = 512`,
`overlap = 50` (for which `overlap < max_size/2 + 2`, the bound the
snap-back actually requires), `_chunk_document` terminates on every
document within `len/208 + 1` loop iterations — each iteration advances
`start` by at least `512/2 + 2 - 50 = 208` — and emits at most
`len/208 + 1` chunks; in particular a 10,000-character document yields
a finite, bounded chunk list. -/
theorem chunk_terminates_repo_config (document eid : Str) :
    ∃ chunks, chunkDocument settings.CHUNK_SIZE settings.CHUNK_OVERLAP
        (document.length / 208 + 1) document eid = some chunks ∧
      chunks.length ≤ document.length / 208 + 1 := by
  show ∃ chunks, chunkDocument 512 50 (document.length / 208 + 1) document eid
      = some chunks ∧ chunks.length ≤ document.length / 208 + 1
  unfold chunkDocument
  by_cases hlen : document.length ≤ 512
  · rw [if_pos hlen]
    exact ⟨_, rfl, by simp⟩
  · rw [if_neg hlen]
    obtain ⟨r, hr, hl⟩ :=
      chunkLoop_some_512_50 document eid (document.length / 208 + 1) 0 0 [] (by omega)
    exact ⟨r, hr, by simpa using hl⟩

/-- C4, counterexample: on the empty document `_chunk_document` takes
the `len(document) <= CHUNK_SIZE` path and returns one chunk whose text
is empty — not an empty chunk list. -/
theorem chunk_empty_doc_yields_one_empty_chunk :
    chunkDocumentSettings [] (("e1").data) =
      [{ text := [], experience_id := ("e1").data, chunk_index := 0 }] := rfl

theorem chunkLoop_chunks_nonempty (cs ov : Nat) (doc eid : Str) :
    ∀ (fuel : Nat) (start : Int) (cidx : Nat) (acc out : List Chunk),
      (∀ ch ∈ acc, ch.text ≠ []) →
      chunkLoop cs ov doc eid fuel start cidx acc = some out →
      ∀ ch ∈ out, ch.text ≠ [] := by
  intro fuel
  induction fuel with
  | zero =>
    intro start cidx acc out hacc h
    rw [chunkLoop_zero] at h
    split at h
    · exact Option.noConfusion h
    · cases h; exact hacc
  | succ f ih =>
    intro start cidx acc out hacc h
    rw [chunkLoop_succ] at h
    split at h
    · split at h
      · exact ih _ _ _ _ hacc h
      · refine ih _ _ _ _ ?_ h
        intro ch hch
        rcases List.mem_append.1 hch with hch | hch
        · exact hacc ch hch
        · rcases List.mem_singleton.1 hch with rfl
          assumption
    · cases h; exact hacc

/-- C4, amended: chunking the empty document yields exactly one chunk
with empty text (not zero chunks); for every non-empty document and
every configuration/fuel for which the loop completes, every emitted
chunk is non-empty (the short path returns the whole document, the loop
path appends only stripped non-empty spans). -/
theorem chunk_empty_and_nonempty_chunks :
    chunkDocumentSettings [] (("e1").data) =
      [{ text := [], experience_id := ("e1").data, chunk_index := 0 }] ∧
    (∀ (cs ov fuel : Nat) (doc eid : Str) (out : List Chunk), doc ≠ [] →
      chunkDocument cs ov fuel doc eid = some out →
      ∀ ch ∈ out, ch.text ≠ []) := by
  refine ⟨rfl, ?_⟩
  intro cs ov fuel doc eid out hdoc h
  unfold chunkDocument at h
  split at h
  · cases h
    intro ch hch
    rcases List.mem_singleton.1 hch with rfl
    exact hdoc
  · exact chunkLoop_chunks_nonempty cs ov doc eid fuel 0 0 [] out (by simp) h

theorem chunk_empty_and_nonempty_chunks_witness :
    chunkDocumentSettings [] (("e1").data) =
      [{ text := [], experience_id := ("e1").data, chunk_index := 0 }] ∧
    ∀ ch ∈ [(⟨("ab").data, ("e1").data, 0⟩ : Chunk)], ch.text ≠ [] := by
  refine ⟨chunk_empty_and_nonempty_chunks.1, ?_⟩
  exact chunk_empty_and_nonempty_chunks.2 512 50 1 (("ab").data) (("e1").data)
    _ (by decide) rfl

/-- C5, counterexample: on a record whose dict lacks the header keys,
`_create_experience_document` emits the placeholder text `Unknown` for
company, role and year; on the dict shape `database.py` actually
produces for NULL columns — keys present with `None` values — it emits
the placeholder `None` instead.  Either way the missing header fields
are rendered as placeholder text, not omitted. -/
theorem create_document_emits_unknown_placeholders :
    createExperienceDocument e0 =
      ("Company: Unknown\nRole: Unknown\nYear: Unknown").data ∧
    createExperienceDocument e0null =
      ("Company: None\nRole: None\nYear: None").data := by decide

theorem isPrefixOf_false_of_ne_at (p l : Str) (i : Nat) (hi : i < p.length)
    (hne : p[i]? ≠ l[i]?) : p.isPrefixOf l = false := by
  by_contra hb
  rw [Bool.not_eq_false, List.isPrefixOf_iff_prefix] at hb
  obtain ⟨t, rfl⟩ := hb
  rw [List.getElem?_append_left hi] at hne
  exact hne rfl

theorem notPrefix_lit (mark lit : Str) (i : Nat) (hi : i < mark.length)
    (hlen : i < lit.length) (hne : mark[i]? ≠ lit[i]?) (rest : Str) :
    mark.isPrefixOf (lit ++ rest) = false := by
  refine isPrefixOf_false_of_ne_at _ _ i hi ?_
  rw [List.getElem?_append_left hlen]
  exact hne

theorem roundPart_shape (r : RoundInfo) :
    ∃ t, roundPart r = ("Round ").data ++ t := by
  simp only [roundPart]
  split
  · exact ⟨renderGetInt r.round_number (("?").data) ++ ((": ").data ++
      (renderGetStr r.round_type (("Unknown").data) ++ ((" - ").data ++
        preprocessText (getStrD r.description)))), by simp [List.append_assoc]⟩
  · exact ⟨renderGetInt r.round_number (("?").data) ++ ((": ").data ++
      renderGetStr r.round_type (("Unknown").data)), by simp [List.append_assoc]⟩

theorem questionParts_shape (q : QuestionInfo) (p : Str)
    (hp : p ∈ questionParts q) :
    (∃ t, p = ("Question (").data ++ t) ∨
    (optStrTruthy q.answer_approach = true ∧
      ∃ t, p = ("Approach: ").data ++ t) := by
  by_cases hq : preprocessText (getStrD q.question_text) = []
  · simp only [questionParts, hq, if_pos] at hp
    exact absurd hp (List.not_mem_nil p)
  · simp only [questionParts, if_neg hq] at hp
    rcases List.mem_cons.1 hp with rfl | hp
    · refine Or.inl ⟨renderGetStr q.question_type [] ++ ((", ").data ++
        (renderGetStr q.topic [] ++ (("): ").data ++
          preprocessText (getStrD q.question_text)))), ?_⟩
      simp [List.append_assoc]
    · by_cases ha : optStrTruthy q.answer_approach = true
      · simp only [ha, if_pos] at hp
        rcases List.mem_singleton.1 hp with rfl
        exact Or.inr ⟨ha, preprocessText (getStrD q.answer_approach), rfl⟩
      · simp only [ha, Bool.false_eq_true, not_false_iff, if_neg] at hp
        exact absurd hp (List.not_mem_nil p)

theorem mem_experienceParts (e : Experience) (p : Str)
    (hp : p ∈ experienceParts e) :
    p = ("Company: ").data ++ renderGetStr e.company_name (("Unknown").data) ∨
    p = ("Role: ").data ++ renderGetStr e.role (("Unknown").data) ∨
    p = ("Year: ").data ++ renderGetInt e.interview_year (("Unknown").data) ∨
    (optStrTruthy e.offer_status = true ∧
      p = ("Result: ").data ++ getStrD e.offer_status) ∨
    (optIntTruthy e.difficulty_level = true ∧
      p = ("Difficulty: ").data ++
        (toString (e.difficulty_level.getD 0)).data ++ ("/5").data) ∨
    (optStrTruthy e.tips = true ∧
      p = ("Tips: ").data ++ preprocessText (getStrD e.tips)) ∨
    (∃ r ∈ e.rounds, p = roundPart r) ∨
    (∃ q ∈ e.questions, p ∈ questionParts q) := by
  simp only [experienceParts, List.mem_cons, List.mem_append] at hp
  rcases hp with rfl | hp
  · exact Or.inl rfl
  rcases hp with rfl | hp
  · exact Or.inr (Or.inl rfl)
  rcases hp with rfl | hp
  · exact Or.inr (Or.inr (Or.inl rfl))
  rcases hp with (((hp | hp) | hp) | hp) | hp
  · by_cases hc : optStrTruthy e.offer_status = true
    · simp only [hc, if_pos] at hp
      rcases List.mem_singleton.1 hp with rfl
      exact Or.inr (Or.inr (Or.inr (Or.inl ⟨hc, rfl⟩)))
    · simp only [hc, Bool.false_eq_true, not_false_iff, if_neg] at hp
      exact absurd hp (List.not_mem_nil p)
  · by_cases hd : optIntTruthy e.difficulty_level = true
    · simp only [hd, if_pos] at hp
      rcases List.mem_singleton.1 hp with rfl
      exact Or.inr (Or.inr (Or.inr (Or.inr (Or.inl ⟨hd, rfl⟩))))
    · simp only [hd, Bool.false_eq_true, not_false_iff, if_neg] at hp
      exact absurd hp (List.not_mem_nil p)
  · by_cases ht : optStrTruthy e.tips = true
    · simp only [ht, if_pos] at hp
      rcases List.mem_singleton.1 hp with rfl
      exact Or.inr (Or.inr (Or.inr (Or.inr (Or.inr (Or.inl ⟨ht, rfl⟩)))))
    · simp only [ht, Bool.false_eq_true, not_false_iff, if_neg] at hp
      exact absurd hp (List.not_mem_nil p)
  · rcases List.mem_map.1 hp with ⟨r, hr, rfl⟩
    exact Or.inr (Or.inr (Or.inr (Or.inr (Or.inr (Or.inr (Or.inl ⟨r, hr, rfl⟩))))))
  · rcases List.mem_flatMap.1 hp with ⟨q, hq, hmem⟩
    exact Or.inr (Or.inr (Or.inr (Or.inr (Or.inr (Or.inr (Or.inr ⟨q, hq, hmem⟩))))))

theorem experienceParts_no_marker (e : Experience) (mark : Str)
    (hC : ∀ rest, mark.isPrefixOf ((("Company: ").data) ++ rest) = false)
    (hRl : ∀ rest, mark.isPrefixOf ((("Role: ").data) ++ rest) = false)
    (hY : ∀ rest, mark.isPrefixOf ((("Year: ").data) ++ rest) = false)
    (hRes : optStrTruthy e.offer_status = true →
      ∀ rest, mark.isPrefixOf ((("Result: ").data) ++ rest) = false)
    (hD : optIntTruthy e.difficulty_level = true →
      ∀ rest, mark.isPrefixOf ((("Difficulty: ").data) ++ rest) = false)
    (hT : optStrTruthy e.tips = true →
      ∀ rest, mark.isPrefixOf ((("Tips: ").data) ++ rest) = false)
    (hRd : ∀ rest, mark.isPrefixOf ((("Round ").data) ++ rest) = false)
    (hQ : ∀ rest, mark.isPrefixOf ((("Question (").data) ++ rest) = false)
    (hA : ∀ q, q ∈ e.questions → optStrTruthy q.answer_approach = true →
      ∀ rest, mark.isPrefixOf ((("Approach: ").data) ++ rest) = false) :
    ∀ p ∈ experienceParts e, mark.isPrefixOf p = false := by
  intro p hp
  rcases mem_experienceParts e p hp with rfl | rfl | rfl | ⟨hc, rfl⟩ | ⟨hc, rfl⟩ |
    ⟨hc, rfl⟩ | ⟨r, hr, rfl⟩ | ⟨q, hq, hmem⟩
  · exact hC _
  · exact hRl _
  · exact hY _
  · exact hRes hc _
  · rw [List.append_assoc]
    exact hD hc _
  · exact hT hc _
  · obtain ⟨t, ht⟩ := roundPart_shape r
    rw [ht]
    exact hRd _
  · rcases questionParts_shape q p hmem with ⟨t, rfl⟩ | ⟨ha, t, rfl⟩
    · exact hQ _
    · exact hA q hq ha _

/-- C5, amended: the document builder is a pure function of the record
(determinism is inherent in the embedding), and every truly optional
section is omitted when missing or falsy: no `Result:`, `Difficulty:`
or `Tips:` part exists when the corresponding field is falsy, a round
with a falsy description contributes exactly its header part with no
description appended, a question with empty preprocessed text
contributes no part at all, and no `Approach: ` part exists when every
question's approach is falsy.  But the three header fields company,
role and year are always emitted, with placeholder text substituted for
a missing value — `Unknown` when the dict lacks the key, and `None`
when the key is present with a database NULL (the shape `database.py`
actually produces). -/
theorem create_document_header_and_omission (e : Experience) :
    (experienceParts e).take 3 =
      [("Company: ").data ++ renderGetStr e.company_name (("Unknown").data),
       ("Role: ").data ++ renderGetStr e.role (("Unknown").data),
       ("Year: ").data ++ renderGetInt e.interview_year (("Unknown").data)] ∧
    (∀ d, renderGetStr .missing d = d) ∧
    (∀ d, renderGetStr .null d = ("None").data) ∧
    (optStrTruthy e.offer_status = false →
      ∀ p ∈ experienceParts e, (("Result: ").data).isPrefixOf p = false) ∧
    (optIntTruthy e.difficulty_level = false →
      ∀ p ∈ experienceParts e, (("Difficulty: ").data).isPrefixOf p = false) ∧
    (optStrTruthy e.tips = false →
      ∀ p ∈ experienceParts e, (("Tips: ").data).isPrefixOf p = false) ∧
    (∀ r : RoundInfo, optStrTruthy r.description = false →
      roundPart r = ("Round ").data ++ renderGetInt r.round_number (("?").data) ++
        (": ").data ++ renderGetStr r.round_type (("Unknown").data)) ∧
    (∀ q : QuestionInfo, preprocessText (getStrD q.question_text) = [] →
      questionParts q = []) ∧
    ((∀ q ∈ e.questions, optStrTruthy q.answer_approach = false) →
      ∀ p ∈ experienceParts e, (("Approach: ").data).isPrefixOf p = false) := by
  refine ⟨rfl, fun d => rfl, fun d => rfl, ?_, ?_, ?_, ?_, ?_, ?_⟩
  · intro hoff
    exact experienceParts_no_marker e _
      (notPrefix_lit _ _ 0 (by decide) (by decide) (by decide))
      (notPrefix_lit _ _ 1 (by decide) (by decide) (by decide))
      (notPrefix_lit _ _ 0 (by decide) (by decide) (by decide))
      (fun htr => absurd htr (by rw [hoff]; exact Bool.false_ne_true))
      (fun _ => notPrefix_lit _ _ 0 (by decide) (by decide) (by decide))
      (fun _ => notPrefix_lit _ _ 0 (by decide) (by decide) (by decide))
      (notPrefix_lit _ _ 1 (by decide) (by decide) (by decide))
      (notPrefix_lit _ _ 0 (by decide) (by decide) (by decide))
      (fun q hq ha => notPrefix_lit _ _ 0 (by decide) (by decide) (by decide))
  · intro hdiff
    exact experienceParts_no_marker e _
      (notPrefix_lit _ _ 0 (by decide) (by decide) (by decide))
      (notPrefix_lit _ _ 0 (by decide) (by decide) (by decide))
      (notPrefix_lit _ _ 0 (by decide) (by decide) (by decide))
      (fun _ => notPrefix_lit _ _ 0 (by decide) (by decide) (by decide))
      (fun htr => absurd htr (by rw [hdiff]; exact Bool.false_ne_true))
      (fun _ => notPrefix_lit _ _ 0 (by decide) (by decide) (by decide))
      (notPrefix_lit _ _ 0 (by decide) (by decide) (by decide))
      (notPrefix_lit _ _ 0 (by decide) (by decide) (by decide))
      (fun q hq ha => notPrefix_lit _ _ 0 (by decide) (by decide) (by decide))
  · intro htips
    exact experienceParts_no_marker e _
      (notPrefix_lit _ _ 0 (by decide) (by decide) (by decide))
      (notPrefix_lit _ _ 0 (by decide) (by decide) (by decide))
      (notPrefix_lit _ _ 0 (by decide) (by decide) (by decide))
      (fun _ => notPrefix_lit _ _ 0 (by decide) (by decide) (by decide))
      (fun _ => notPrefix_lit _ _ 0 (by decide) (by decide) (by decide))
      (fun htr => absurd htr (by rw [htips]; exact Bool.false_ne_true))
      (notPrefix_lit _ _ 0 (by decide) (by decide) (by decide))
      (notPrefix_lit _ _ 0 (by decide) (by decide) (by decide))
      (fun q hq ha => notPrefix_lit _ _ 0 (by decide) (by decide) (by decide))
  · intro r hrd
    simp [roundPart, hrd]
  · intro q hq
    simp [questionParts, hq]
  · intro happr
    exact experienceParts_no_marker e _
      (notPrefix_lit _ _ 0 (by decide) (by decide) (by decide))
      (notPrefix_lit _ _ 0 (by decide) (by decide) (by decide))
      (notPrefix_lit _ _ 0 (by decide) (by decide) (by decide))
      (fun _ => notPrefix_lit _ _ 0 (by decide) (by decide) (by decide))
      (fun _ => notPrefix_lit _ _ 0 (by decide) (by decide) (by decide))
      (fun _ => notPrefix_lit _ _ 0 (by decide) (by decide) (by decide))
      (notPrefix_lit _ _ 0 (by decide) (by decide) (by decide))
      (notPrefix_lit _ _ 0 (by decide) (by decide) (by decide))
      (fun q hq ha => absurd ha (by rw [happr q hq]; exact Bool.false_ne_true))

theorem create_document_header_and_omission_witness :
    (experienceParts e0).take 3 =
      [("Company: ").data ++ renderGetStr e0.company_name (("Unknown").data),
       ("Role: ").data ++ renderGetStr e0.role (("Unknown").data),
       ("Year: ").data ++ renderGetInt e0.interview_year (("Unknown").data)] ∧
    (("Result: ").data).isPrefixOf
      (("Company: ").data ++ renderGetStr e0.company_name (("Unknown").data))
      = false ∧
    (("Difficulty: ").data).isPrefixOf
      (("Company: ").data ++ renderGetStr e0.company_name (("Unknown").data))
      = false ∧
    (("Tips: ").data).isPrefixOf
      (("Company: ").data ++ renderGetStr e0.company_name (("Unknown").data))
      = false ∧
    roundPart ⟨.missing, .missing, none⟩ =
      ("Round ").data ++ renderGetInt (.missing) (("?").data) ++ (": ").data ++
        renderGetStr (.missing) (("Unknown").data) ∧
    questionParts ⟨none, .missing, .missing, none⟩ = [] ∧
    (("Approach: ").data).isPrefixOf
      (("Company: ").data ++ renderGetStr e0.company_name (("Unknown").data))
      = false := by
  have h := create_document_header_and_omission e0
  refine ⟨h.1, ?_, ?_, ?_, ?_, ?_, ?_⟩
  · exact h.2.2.2.1 (by decide) _ (List.mem_cons_self _ _)
  · exact h.2.2.2.2.1 (by decide) _ (List.mem_cons_self _ _)
  · exact h.2.2.2.2.2.1 (by decide) _ (List.mem_cons_self _ _)
  · exact h.2.2.2.2.2.2.1 ⟨.missing, .missing, none⟩ (by decide)
  · exact h.2.2.2.2.2.2.2.1 ⟨none, .missing, .missing, none⟩ (by decide)
  · exact h.2.2.2.2.2.2.2.2 (by intro q hq; exact absurd hq (List.not_mem_nil q))
      _ (List.mem_cons_self _ _)

theorem createExperienceDocument_ne_nil (e : Experience) :
    createExperienceDocument e ≠ [] := by
  intro h
  unfold createExperienceDocument experienceParts at h
  simp only [joinNl] at h
  rcases List.append_eq_nil.1 h with ⟨-, h2⟩
  exact List.noConfusion h2

theorem upd_apply {α β : Type} [DecidableEq α] (m : α → Option β) (k : α)
    (v : β) (k' : α) : upd m k v k' = if k' = k then some v else m k' := rfl

theorem foldl_upd_range_lookup (m : Nat → Option Str) (base : Nat) (v : Str) :
    ∀ (n k : Nat),
      ((List.range n).foldl (fun acc i => upd acc (base + i) v) m) k =
        if base ≤ k ∧ k < base + n then some v else m k := by
  intro n
  induction n with
  | zero =>
    intro k
    simp only [List.range_zero, List.foldl_nil]
    rw [if_neg (by omega)]
  | succ n ih =>
    intro k
    rw [List.range_succ, List.foldl_append, List.foldl_cons, List.foldl_nil]
    rw [upd_apply]
    by_cases hk : k = base + n
    · subst hk
      rw [if_pos rfl, if_pos (by omega)]
    · rw [if_neg hk, ih k]
      by_cases h2 : base ≤ k ∧ k < base + n
      · rw [if_pos h2, if_pos (by omega)]
      · rw [if_neg h2, if_neg (by omega)]

theorem addExperience_ok_inv (emb : Emb) (st : PipelineState) (e : Experience)
    (st' : PipelineState) (logs : List Str)
    (h : addExperience emb st e = (.ok st', logs)) : st' = addNewState st e := by
  unfold addExperience at h
  rw [if_neg (createExperienceDocument_ne_nil e)] at h
  cases hemb : emb (textsOf e) with
  | error msg =>
    rw [hemb] at h
    exact Except.noConfusion (congrArg Prod.fst h)
  | ok u =>
    rw [hemb] at h
    have h1 := congrArg Prod.fst h
    simp only at h1
    exact (Except.ok.inj h1).symm

/-- C6: a successful `add_experience` grows the vector count by the
number `N` of chunk vectors added, assigns exactly the slots
`[current_count, current_count + N)` to the record in `id_map`, and
leaves every other slot's mapping unchanged. -/
theorem add_experience_assigns_slots (emb : Emb) (st : PipelineState)
    (e : Experience) (st' : PipelineState) (logs : List Str)
    (h : addExperience emb st e = (.ok st', logs)) :
    st'.ntotal = st.ntotal +
      (chunkDocumentSettings (createExperienceDocument e) e.id).length ∧
    (∀ k, st.ntotal ≤ k →
      k < st.ntotal + (chunkDocumentSettings (createExperienceDocument e) e.id).length →
      st'.id_map k = some e.id) ∧
    (∀ k, k < st.ntotal ∨
      st.ntotal + (chunkDocumentSettings (createExperienceDocument e) e.id).length ≤ k →
      st'.id_map k = st.id_map k) := by
  have hst := addExperience_ok_inv emb st e st' logs h
  subst hst
  refine ⟨rfl, ?_, ?_⟩
  · intro k hk1 hk2
    show ((List.range _).foldl (fun m i => upd m (st.ntotal + i) e.id) st.id_map) k
      = some e.id
    rw [foldl_upd_range_lookup, if_pos ⟨hk1, hk2⟩]
  · intro k hk
    show ((List.range _).foldl (fun m i => upd m (st.ntotal + i) e.id) st.id_map) k
      = st.id_map k
    rw [foldl_upd_range_lookup, if_neg (by omega)]

theorem add_experience_assigns_slots_witness :
    (addNewState emptyState c2exp).ntotal = emptyState.ntotal +
      (chunkDocumentSettings (createExperienceDocument c2exp) c2exp.id).length ∧
    (addNewState emptyState c2exp).id_map 0 = some c2exp.id := by
  have h := add_experience_assigns_slots embAlwaysOk emptyState c2exp
    (addNewState emptyState c2exp) _ rfl
  exact ⟨h.1, h.2.1 0 (by decide) (by decide)⟩

/-- C2, counterexample: adding the same record twice through
`add_experience` is not a logical replace: after the second add the slot
0 assigned by the first add is still mapped to the record in `id_map`
(no tombstone-then-add happens; the record now owns both slot 0 and
slot 1). -/
theorem re_add_keeps_prior_slots_counterexample :
    (addExperience embAlwaysOk emptyState c2exp).1 =
      .ok (addNewState emptyState c2exp) ∧
    (addExperience embAlwaysOk (addNewState emptyState c2exp) c2exp).1 =
      .ok (addNewState (addNewState emptyState c2exp) c2exp) ∧
    (addNewState emptyState c2exp).ntotal = 1 ∧
    (addNewState emptyState c2exp).id_map 0 = some (("r1").data) ∧
    (addNewState (addNewState emptyState c2exp) c2exp).ntotal = 2 ∧
    (addNewState (addNewState emptyState c2exp) c2exp).id_map 0 =
      some (("r1").data) :=
  ⟨rfl, rfl, by decide, by decide, by decide, by decide⟩

/-- C2, amended: re-adding an already-indexed record through
`add_experience` appends `N` fresh slots mapped to the record while the
`N` slots of the first add remain mapped to it as well — the operation
is not idempotent by record id at the SlotMap level; no
tombstone-then-add occurs.  (Query-level dedup still returns at most one
source for the record.) -/
theorem re_add_appends_and_keeps_prior_slots (emb : Emb) (st : PipelineState)
    (e : Experience) (st1 st2 : PipelineState) (l1 l2 : List Str)
    (h1 : addExperience emb st e = (.ok st1, l1))
    (h2 : addExperience emb st1 e = (.ok st2, l2)) :
    st1.ntotal = st.ntotal +
      (chunkDocumentSettings (createExperienceDocument e) e.id).length ∧
    st2.ntotal = st1.ntotal +
      (chunkDocumentSettings (createExperienceDocument e) e.id).length ∧
    ∀ k, st.ntotal ≤ k → k < st2.ntotal → st2.id_map k = some e.id := by
  have hs1 := addExperience_ok_inv emb st e st1 l1 h1
  have hs2 := addExperience_ok_inv emb st1 e st2 l2 h2
  subst hs1; subst hs2
  refine ⟨rfl, rfl, ?_⟩
  intro k hk1 hk2
  have hN1 : (addNewState st e).ntotal = st.ntotal +
      (chunkDocumentSettings (createExperienceDocument e) e.id).length := rfl
  have hN2 : (addNewState (addNewState st e) e).ntotal =
      (addNewState st e).ntotal +
      (chunkDocumentSettings (createExperienceDocument e) e.id).length := rfl
  show ((List.range _).foldl (fun m i => upd m ((addNewState st e).ntotal + i) e.id)
      (addNewState st e).id_map) k = some e.id
  rw [foldl_upd_range_lookup]
  by_cases hmid : (addNewState st e).ntotal ≤ k
  · rw [if_pos ⟨hmid, by omega⟩]
  · rw [if_neg (by omega)]
    show ((List.range _).foldl (fun m i => upd m (st.ntotal + i) e.id) st.id_map) k
      = some e.id
    rw [foldl_upd_range_lookup, if_pos ⟨hk1, by omega⟩]

theorem re_add_appends_and_keeps_prior_slots_witness :
    (addNewState emptyState c2exp).ntotal = emptyState.ntotal +
      (chunkDocumentSettings (createExperienceDocument c2exp) c2exp.id).length ∧
    (addNewState (addNewState emptyState c2exp) c2exp).id_map 0 =
      some c2exp.id := by
  have h := re_add_appends_and_keeps_prior_slots embAlwaysOk emptyState c2exp
    (addNewState emptyState c2exp)
    (addNewState (addNewState emptyState c2exp) c2exp) _ _ rfl rfl
  exact ⟨h.1, h.2.2 0 (by decide) (by decide)⟩

theorem processCandidates_ids (st : PipelineState) (c : Option Str)
    (y : Option Int) (k : Nat) :
    ∀ (cands : List (ℚ × Int)) (seen : List Str) (sources res : List Source),
      processCandidates st c y k cands seen sources = .ok res →
      ∀ s ∈ res, s ∈ sources ∨ ∃ i, idMapGet st i = some s.id := by
  intro cands
  induction cands with
  | nil =>
    intro seen sources res h s hs
    simp only [processCandidates] at h
    cases h
    exact Or.inl hs
  | cons cand rest ih =>
    intro seen sources res h s hs
    obtain ⟨dist, idx⟩ := cand
    simp only [processCandidates] at h
    split at h
    · exact ih seen sources res h s hs
    · split at h
      · exact ih seen sources res h s hs
      · rename_i eid heid
        split at h
        · exact ih seen sources res h s hs
        · split at h
          · exact Except.noConfusion h
          · rename_i pass hpass
            split at h
            · exact ih seen sources res h s hs
            · split at h
              · exact ih seen sources res h s hs
              · split at h
                · cases h
                  rcases List.mem_append.1 hs with hs | hs
                  · exact Or.inl hs
                  · rcases List.mem_singleton.1 hs with rfl
                    exact Or.inr ⟨idx, heid⟩
                · rcases ih _ _ _ h s hs with hs' | hs'
                  · rcases List.mem_append.1 hs' with hs' | hs'
                    · exact Or.inl hs'
                    · rcases List.mem_singleton.1 hs' with rfl
                      exact Or.inr ⟨idx, heid⟩
                  · exact Or.inr hs'

/-- C1: `remove_experience(X)` leaves the vector store's slot count
(`get_index_size` / `index.ntotal`) unchanged — `X`'s vectors still
occupy their slots — and a subsequent `query` on the resulting state
never returns `X` among its sources: every `id_map` entry pointing at
`X` was dropped, so no candidate slot can resolve to `X`. -/
theorem remove_then_query_never_returns_record (st : PipelineState) (X : Str)
    (cands : List (ℚ × Int)) (c : Option Str) (y : Option Int) (k : Nat)
    (res : List Source)
    (h : query (removeExperience st X).1 cands c y k = .ok res) :
    getIndexSize (removeExperience st X).1 = getIndexSize st ∧
    ∀ s ∈ res, s.id ≠ X := by
  refine ⟨rfl, ?_⟩
  intro s hs heq
  simp only [query] at h
  split at h
  · cases h
    exact absurd hs (List.not_mem_nil s)
  · rcases processCandidates_ids _ _ _ _ _ _ _ _ h s hs with h1 | ⟨i, hi⟩
    · exact absurd h1 (List.not_mem_nil s)
    · rw [heq] at hi
      simp only [removeExperience, idMapGet] at hi
      split at hi
      · exact Option.noConfusion hi
      · split at hi
        · rename_i v hv
          split at hi
          · exact Option.noConfusion hi
          · rename_i hne
            exact hne (Option.some.inj hi)
        · exact Option.noConfusion hi

theorem remove_then_query_never_returns_record_witness :
    getIndexSize (removeExperience stW (("r1").data)).1 = getIndexSize stW ∧
    ∀ s ∈ [mkSource (("r2").data) 1
        ((removeExperience stW (("r1").data)).1.metadata (("r2").data))],
      s.id ≠ ("r1").data := by
  have h := remove_then_query_never_returns_record stW (("r1").data)
    [((1 : ℚ), 0), ((1 : ℚ), 1)] none none 5
    [mkSource (("r2").data) 1
      ((removeExperience stW (("r1").data)).1.metadata (("r2").data))] rfl
  exact h

theorem companyCheckPass_ok (c : Option Str) (st : PipelineState) (eid : Str)
    (hmeta : ∀ rid m, st.metadata rid = some m → ∃ cn, m.company = some cn) :
    ∃ b, companyCheckPass c (st.metadata eid) = .ok b := by
  cases c with
  | none => exact ⟨true, rfl⟩
  | some f =>
    by_cases hf : f = []
    · exact ⟨true, by simp [companyCheckPass, hf]⟩
    · cases hm : st.metadata eid with
      | none =>
        exact ⟨isSubstr (lowerStr f) (lowerStr []),
          by simp [companyCheckPass, hf]⟩
      | some m =>
        obtain ⟨cn, hcn⟩ := hmeta eid m hm
        exact ⟨isSubstr (lowerStr f) (lowerStr cn),
          by simp [companyCheckPass, hf, hcn]⟩

theorem processCandidates_no_error (st : PipelineState) (c : Option Str)
    (y : Option Int) (k : Nat)
    (hmeta : ∀ rid m, st.metadata rid = some m → ∃ cn, m.company = some cn) :
    ∀ (cands : List (ℚ × Int)) (seen : List Str) (sources : List Source),
      ∃ res, processCandidates st c y k cands seen sources = .ok res := by
  intro cands
  induction cands with
  | nil => intro seen sources; exact ⟨sources, rfl⟩
  | cons cand rest ih =>
    intro seen sources
    obtain ⟨dist, idx⟩ := cand
    simp only [processCandidates]
    split
    · exact ih seen sources
    · split
      · exact ih seen sources
      · rename_i eid heid
        split
        · exact ih seen sources
        · split
          · rename_i err herr
            obtain ⟨b, hb⟩ := companyCheckPass_ok c st eid hmeta
            rw [herr] at hb
            exact Except.noConfusion hb
          · split
            · exact ih _ _
            · split
              · exact ih _ _
              · split
                · exact ⟨_, rfl⟩
                · exact ih _ _

/-- C10 (implicit): `add_experience` stores
`experience.get('company_name')` into metadata unvalidated, so a record
without a company yields a metadata entry with `company = None`.  When
`query` runs with a non-empty company filter and its candidate scan
reaches such a record (next candidate passes threshold, resolves in
`id_map` to an unseen id whose metadata company is `None`), the filter
branch evaluates `None.lower()` and raises `AttributeError` instead of
filtering the record out.  Conversely, if every stored metadata company
is an actual string, `query` never raises. -/
theorem query_none_company_crash_and_safety :
    (∀ (st : PipelineState) (f : Str) (y : Option Int) (k : Nat)
        (d : ℚ) (i : Int) (rid : Str) (m : MetaEntry)
        (rest : List (ℚ × Int)) (seen : List Str) (sources : List Source),
      f ≠ [] → ¬(i = -1 ∨ d < settings.SIMILARITY_THRESHOLD) →
      idMapGet st i = some rid → ¬(rid = [] ∨ rid ∈ seen) →
      st.metadata rid = some m → m.company = none →
      processCandidates st (some f) y k ((d, i) :: rest) seen sources =
        .error (("AttributeError: NoneType object has no attribute lower").data)) ∧
    (∀ st : PipelineState,
      (∀ rid m, st.metadata rid = some m → ∃ cn, m.company = some cn) →
      ∀ (cands : List (ℚ × Int)) (c : Option Str) (y : Option Int) (k : Nat),
        ∃ res, query st cands c y k = .ok res) := by
  constructor
  · intro st f y k d i rid m rest seen sources hf hthr hmap hfresh hmeta hcomp
    simp only [processCandidates]
    rw [if_neg hthr, hmap]
    simp only [if_neg hfresh]
    simp [companyCheckPass, hf, hmeta, hcomp]
  · intro st hmeta cands c y k
    simp only [query]
    split
    · exact ⟨[], rfl⟩
    · exact processCandidates_no_error st c y k hmeta _ _ _

theorem query_none_company_crash_and_safety_witness :
    processCandidates stW10 (some (("acme").data)) none 5 [((1 : ℚ), 0)] [] [] =
      .error (("AttributeError: NoneType object has no attribute lower").data) ∧
    ∃ res, query stW [((1 : ℚ), 0)] none none 5 = .ok res := by
  constructor
  · exact query_none_company_crash_and_safety.1 stW10 (("acme").data) none 5
      1 0 (("rX").data) mNoneCompany [] [] []
      (by decide) (by decide) rfl (by decide) rfl rfl
  · refine query_none_company_crash_and_safety.2 stW ?_ [((1 : ℚ), 0)] none none 5
    intro rid m hm
    simp only [stW] at hm
    split at hm
    · cases Option.some.inj hm
      exact ⟨("Acme").data, rfl⟩
    · split at hm
      · cases Option.some.inj hm
        exact ⟨("Globex").data, rfl⟩
      · exact Option.noConfusion hm

theorem companyCheckPass_true_elim (f : Str) (hf : f ≠ []) (meta : Option MetaEntry)
    (h : companyCheckPass (some f) meta = .ok true) :
    ∃ m, meta = some m ∧ ∃ cn, m.company = some cn ∧
      isSubstr (lowerStr f) (lowerStr cn) = true := by
  cases meta with
  | none =>
    exfalso
    have h' : companyCheckPass (some f) none =
        .ok (isSubstr (lowerStr f) (lowerStr [])) := by
      simp [companyCheckPass, hf]
    rw [h'] at h
    have h1 : isSubstr (lowerStr f) (lowerStr []) = true := Except.ok.inj h
    have h2 : lowerStr f <:+: lowerStr [] := of_decide_eq_true h1
    exact hf (List.map_eq_nil_iff.1 (List.infix_nil.1 h2))
  | some m =>
    cases hc : m.company with
    | none =>
      exfalso
      have h' : companyCheckPass (some f) (some m) =
          .error (("AttributeError: NoneType object has no attribute lower").data) := by
        simp [companyCheckPass, hf, hc]
      rw [h'] at h
      exact Except.noConfusion h
    | some cn =>
      refine ⟨m, rfl, cn, hc, ?_⟩
      have h' : companyCheckPass (some f) (some m) =
          .ok (isSubstr (lowerStr f) (lowerStr cn)) := by
        simp [companyCheckPass, hf, hc]
      rw [h'] at h
      exact Except.ok.inj h

theorem yearRejects_false_elim (yv : Int) (hy : yv ≠ 0) (meta : Option MetaEntry)
    (h : yearRejects (some yv) meta = false) :
    ∃ m, meta = some m ∧ m.year = some yv := by
  cases meta with
  | none =>
    have h' : yearRejects (some yv) none = true := by simp [yearRejects, hy]
    rw [h'] at h
    exact Bool.noConfusion h
  | some m =>
    refine ⟨m, rfl, ?_⟩
    have h' : yearRejects (some yv) (some m) = !(m.year == some yv) := by
      simp [yearRejects, hy]
    rw [h'] at h
    simpa using h

theorem processCandidates_company_filter (st : PipelineState) (f : Str)
    (y : Option Int) (k : Nat) (hf : f ≠ []) :
    ∀ (cands : List (ℚ × Int)) (seen : List Str) (sources res : List Source),
      (∀ s ∈ sources, ∃ m, st.metadata s.id = some m ∧
        ∃ cn, m.company = some cn ∧ isSubstr (lowerStr f) (lowerStr cn) = true) →
      processCandidates st (some f) y k cands seen sources = .ok res →
      ∀ s ∈ res, ∃ m, st.metadata s.id = some m ∧
        ∃ cn, m.company = some cn ∧ isSubstr (lowerStr f) (lowerStr cn) = true := by
  intro cands
  induction cands with
  | nil =>
    intro seen sources res hsrc h
    simp only [processCandidates] at h
    cases h
    exact hsrc
  | cons cand rest ih =>
    intro seen sources res hsrc h
    obtain ⟨dist, idx⟩ := cand
    simp only [processCandidates] at h
    split at h
    · exact ih seen sources res hsrc h
    · split at h
      · exact ih seen sources res hsrc h
      · rename_i eid heid
        split at h
        · exact ih seen sources res hsrc h
        · split at h
          · exact Except.noConfusion h
          · rename_i pass hpass
            split at h
            · exact ih seen sources res hsrc h
            · rename_i hnp
              have hptrue : pass = true := by
                cases pass
                · exact absurd rfl hnp
                · rfl
              subst hptrue
              obtain ⟨m, hmeq, cn, hcn, hsub⟩ :=
                companyCheckPass_true_elim f hf (st.metadata eid) hpass
              have hmk : ∃ m', st.metadata (mkSource eid dist (st.metadata eid)).id
                  = some m' ∧ ∃ cn', m'.company = some cn' ∧
                  isSubstr (lowerStr f) (lowerStr cn') = true :=
                ⟨m, hmeq, cn, hcn, hsub⟩
              split at h
              · exact ih seen sources res hsrc h
              · split at h
                · cases h
                  intro s hs
                  rcases List.mem_append.1 hs with hs | hs
                  · exact hsrc s hs
                  · rcases List.mem_singleton.1 hs with rfl
                    exact hmk
                · refine ih _ _ _ ?_ h
                  intro s hs
                  rcases List.mem_append.1 hs with hs | hs
                  · exact hsrc s hs
                  · rcases List.mem_singleton.1 hs with rfl
                    exact hmk

theorem processCandidates_year_filter (st : PipelineState) (c : Option Str)
    (yv : Int) (k : Nat) (hy : yv ≠ 0) :
    ∀ (cands : List (ℚ × Int)) (seen : List Str) (sources res : List Source),
      (∀ s ∈ sources, ∃ m, st.metadata s.id = some m ∧ m.year = some yv) →
      processCandidates st c (some yv) k cands seen sources = .ok res →
      ∀ s ∈ res, ∃ m, st.metadata s.id = some m ∧ m.year = some yv := by
  intro cands
  induction cands with
  | nil =>
    intro seen sources res hsrc h
    simp only [processCandidates] at h
    cases h
    exact hsrc
  | cons cand rest ih =>
    intro seen sources res hsrc h
    obtain ⟨dist, idx⟩ := cand
    simp only [processCandidates] at h
    split at h
    · exact ih seen sources res hsrc h
    · split at h
      · exact ih seen sources res hsrc h
      · rename_i eid heid
        split at h
        · exact ih seen sources res hsrc h
        · split at h
          · exact Except.noConfusion h
          · rename_i pass hpass
            split at h
            · exact ih seen sources res hsrc h
            · split at h
              · exact ih seen sources res hsrc h
              · rename_i hyr
                rw [Bool.not_eq_true] at hyr
                obtain ⟨m, hmeq, hyear⟩ :=
                  yearRejects_false_elim yv hy (st.metadata eid) hyr
                have hmk : ∃ m', st.metadata (mkSource eid dist (st.metadata eid)).id
                    = some m' ∧ m'.year = some yv := ⟨m, hmeq, hyear⟩
                split at h
                · cases h
                  intro s hs
                  rcases List.mem_append.1 hs with hs | hs
                  · exact hsrc s hs
                  · rcases List.mem_singleton.1 hs with rfl
                    exact hmk
                · refine ih _ _ _ ?_ h
                  intro s hs
                  rcases List.mem_append.1 hs with hs | hs
                  · exact hsrc s hs
                  · rcases List.mem_singleton.1 hs with rfl
                    exact hmk

/-- C8: when `query` is called with a non-empty (truthy) company filter
and returns normally, every returned source's record has a metadata
entry whose company case-insensitively contains the filter string; when
called with a nonzero (truthy) year filter and returning normally,
every returned source's metadata year equals the filter year. -/
theorem query_filters_respected :
    (∀ (st : PipelineState) (cands : List (ℚ × Int)) (f : Str)
        (y : Option Int) (k : Nat) (res : List Source), f ≠ [] →
      query st cands (some f) y k = .ok res →
      ∀ s ∈ res, ∃ m, st.metadata s.id = some m ∧
        ∃ cn, m.company = some cn ∧
          isSubstr (lowerStr f) (lowerStr cn) = true) ∧
    (∀ (st : PipelineState) (cands : List (ℚ × Int)) (c : Option Str)
        (yv : Int) (k : Nat) (res : List Source), yv ≠ 0 →
      query st cands c (some yv) k = .ok res →
      ∀ s ∈ res, ∃ m, st.metadata s.id = some m ∧ m.year = some yv) := by
  constructor
  · intro st cands f y k res hf h
    simp only [query] at h
    split at h
    · cases h
      intro s hs
      exact absurd hs (List.not_mem_nil s)
    · exact processCandidates_company_filter st f y k hf _ _ _ _ (by simp) h
  · intro st cands c yv k res hy h
    simp only [query] at h
    split at h
    · cases h
      intro s hs
      exact absurd hs (List.not_mem_nil s)
    · exact processCandidates_year_filter st c yv k hy _ _ _ _ (by simp) h

theorem query_filters_respected_witness :
    (∀ s ∈ [mkSource (("r1").data) 1 (stW.metadata (("r1").data))],
      ∃ m, stW.metadata s.id = some m ∧ ∃ cn, m.company = some cn ∧
        isSubstr (lowerStr (("acme").data)) (lowerStr cn) = true) ∧
    (∀ s ∈ [mkSource (("r1").data) 1 (stW.metadata (("r1").data))],
      ∃ m, stW.metadata s.id = some m ∧ m.year = some 2023) := by
  constructor
  · exact query_filters_respected.1 stW [((1 : ℚ), 0), ((1 : ℚ), 1)]
      (("acme").data) none 5 _ (by decide) rfl
  · exact query_filters_respected.2 stW [((1 : ℚ), 0)] none 2023 5 _
      (by decide) rfl

theorem mkCand_id (st : PipelineState) (dist : ℚ) (idx : Int) (eid : Str)
    (heq : idMapGet st idx = some eid) :
    mkCand st (dist, idx) = mkSource eid dist (st.metadata eid) := by
  simp [mkCand, heq]

theorem processCandidates_spec (st : PipelineState) (c : Option Str)
    (y : Option Int) (k : Nat) :
    ∀ (cands : List (ℚ × Int)) (seen : List Str) (sources res : List Source),
      sources.length < k →
      processCandidates st c y k cands seen sources = .ok res →
      res = sources ++
        (dedupFirstAux seen
          ((cands.filter (passesB st c y)).map (mkCand st))).take
          (k - sources.length) := by
  intro cands
  induction cands with
  | nil =>
    intro seen sources res hlen h
    simp only [processCandidates] at h
    cases h
    simp [dedupFirstAux]
  | cons cand rest ih =>
    intro seen sources res hlen h
    obtain ⟨dist, idx⟩ := cand
    simp only [processCandidates] at h
    split at h
    · rename_i hthr
      have hp : passesB st c y (dist, idx) = false := by
        simp only [passesB]
        rw [if_pos hthr]
      rw [List.filter_cons, if_neg (by rw [hp]; exact Bool.false_ne_true)]
      exact ih seen sources res hlen h
    · rename_i hthr
      split at h
      · rename_i heq
        have hp : passesB st c y (dist, idx) = false := by
          simp [passesB, hthr, heq]
        rw [List.filter_cons, if_neg (by rw [hp]; exact Bool.false_ne_true)]
        exact ih seen sources res hlen h
      · rename_i eid heq
        split at h
        · rename_i hfs
          rcases hfs with hnil | hseen
          · have hp : passesB st c y (dist, idx) = false := by
              simp [passesB, hthr, heq, hnil]
            rw [List.filter_cons, if_neg (by rw [hp]; exact Bool.false_ne_true)]
            exact ih seen sources res hlen h
          · by_cases hp : passesB st c y (dist, idx) = true
            · rw [List.filter_cons, if_pos hp, List.map_cons]
              have hid : (mkCand st (dist, idx)).id = eid := by
                rw [mkCand_id st dist idx eid heq]
                rfl
              rw [show dedupFirstAux seen
                  (mkCand st (dist, idx) ::
                    (rest.filter (passesB st c y)).map (mkCand st)) =
                  dedupFirstAux seen
                    ((rest.filter (passesB st c y)).map (mkCand st)) from by
                simp only [dedupFirstAux]
                rw [if_pos (by rw [hid]; exact hseen)]]
              exact ih seen sources res hlen h
            · rw [List.filter_cons, if_neg hp]
              exact ih seen sources res hlen h
        · rename_i hfs
          have hne1 : ¬ eid = [] := fun hh => hfs (Or.inl hh)
          have hns : eid ∉ seen := fun hh => hfs (Or.inr hh)
          split at h
          · exact Except.noConfusion h
          · rename_i pass hpass
            split at h
            · rename_i hnp
              have hpf : pass = false := by
                revert hnp
                cases pass <;> simp
              subst hpf
              have hp : passesB st c y (dist, idx) = false := by
                simp [passesB, hthr, heq, hne1, hpass]
              rw [List.filter_cons, if_neg (by rw [hp]; exact Bool.false_ne_true)]
              exact ih seen sources res hlen h
            · rename_i hnp
              have hpt : pass = true := by
                revert hnp
                cases pass <;> simp
              subst hpt
              split at h
              · rename_i hyr
                have hp : passesB st c y (dist, idx) = false := by
                  simp [passesB, hthr, heq, hne1, hpass, hyr]
                rw [List.filter_cons, if_neg (by rw [hp]; exact Bool.false_ne_true)]
                exact ih seen sources res hlen h
              · rename_i hyr
                rw [Bool.not_eq_true] at hyr
                have hp : passesB st c y (dist, idx) = true := by
                  simp [passesB, hthr, heq, hne1, hpass, hyr]
                rw [List.filter_cons, if_pos hp, List.map_cons,
                  mkCand_id st dist idx eid heq]
                rw [show dedupFirstAux seen
                    (mkSource eid dist (st.metadata eid) ::
                      (rest.filter (passesB st c y)).map (mkCand st)) =
                    mkSource eid dist (st.metadata eid) ::
                      dedupFirstAux (eid :: seen)
                        ((rest.filter (passesB st c y)).map (mkCand st)) from by
                  simp only [dedupFirstAux]
                  rw [if_neg (by simpa [mkSource] using hns)]
                  simp [mkSource]]
                split at h
                · rename_i hbreak
                  cases h
                  have hk1 : k - sources.length = 1 := by
                    simp only [List.length_append, List.length_singleton] at hbreak
                    omega
                  rw [hk1, List.take_succ_cons, List.take_zero]
                · rename_i hbreak
                  have hlen2 : (sources ++ [mkSource eid dist (st.metadata eid)]).length < k := by
                    simp only [List.length_append, List.length_singleton] at hbreak ⊢
                    omega
                  have := ih (eid :: seen)
                    (sources ++ [mkSource eid dist (st.metadata eid)]) res hlen2 h
                  rw [this]
                  have harith : k - (sources ++ [mkSource eid dist (st.metadata eid)]).length
                      = k - sources.length - 1 := by
                    simp only [List.length_append, List.length_singleton]
                    omega
                  rw [harith]
                  have htk : (k - sources.length) = (k - sources.length - 1) + 1 := by
                    omega
                  rw [htk, List.take_succ_cons]
                  simp

theorem dedupFirstAux_nodup : ∀ (l : List Source) (seen : List Str),
    ((dedupFirstAux seen l).map Source.id).Nodup ∧
    ∀ s ∈ dedupFirstAux seen l, s.id ∉ seen := by
  intro l
  induction l with
  | nil =>
    intro seen
    exact ⟨List.nodup_nil, by simp [dedupFirstAux]⟩
  | cons s rest ih =>
    intro seen
    by_cases hs : s.id ∈ seen
    · simp only [dedupFirstAux, if_pos hs]
      exact ih seen
    · simp only [dedupFirstAux, if_neg hs]
      obtain ⟨ihn, ihs⟩ := ih (s.id :: seen)
      refine ⟨?_, ?_⟩
      · simp only [List.map_cons, List.nodup_cons]
        refine ⟨?_, ihn⟩
        intro hmem
        rcases List.mem_map.1 hmem with ⟨t, ht, hteq⟩
        exact ihs t ht (by rw [hteq]; exact List.mem_cons_self _ _)
      · intro t ht
        rcases List.mem_cons.1 ht with rfl | ht
        · exact hs
        · intro hmem
          exact ihs t ht (List.mem_cons_of_mem _ hmem)

/-- C7: whenever `query` returns normally (with the spec's `top_k ≥ 1`),
its sources contain no two entries with the same record id, at most
`top_k` entries are returned, and the result is exactly the first
`top_k` of the keep-first-occurrence dedup of the passing candidates in
rank order — i.e. for each returned record the first (highest-ranked)
passing candidate is the one kept. -/
theorem query_dedup_topk_first_wins (st : PipelineState)
    (cands : List (ℚ × Int)) (c : Option Str) (y : Option Int) (k : Nat)
    (res : List Source) (hk : 1 ≤ k) (h : query st cands c y k = .ok res) :
    (res.map Source.id).Nodup ∧ res.length ≤ k ∧
    res = (dedupFirstAux []
      (((cands.take (searchK st k)).filter (passesB st c y)).map
        (mkCand st))).take k := by
  simp only [query] at h
  split at h
  · rename_i hsk
    cases h
    rw [hsk]
    refine ⟨List.nodup_nil, by simp, by simp [dedupFirstAux]⟩
  · have heq := processCandidates_spec st c y k (cands.take (searchK st k))
      [] [] res (by simpa using hk) h
    rw [heq]
    simp only [List.nil_append, List.length_nil, Nat.sub_zero]
    refine ⟨?_, ?_, by trivial⟩
    · rw [List.map_take]
      exact List.Nodup.sublist (List.take_sublist _ _) (dedupFirstAux_nodup _ []).1
    · exact List.length_take_le _ _

theorem query_dedup_topk_first_wins_witness :
    (([mkSource (("r1").data) 1 (stW.metadata (("r1").data)),
       mkSource (("r2").data) 1 (stW.metadata (("r2").data))].map Source.id).Nodup) ∧
    ([mkSource (("r1").data) 1 (stW.metadata (("r1").data)),
      mkSource (("r2").data) 1 (stW.metadata (("r2").data))].length ≤ 5) ∧
    [mkSource (("r1").data) 1 (stW.metadata (("r1").data)),
     mkSource (("r2").data) 1 (stW.metadata (("r2").data))] =
      (dedupFirstAux []
        ((([((1 : ℚ), 0), ((1 : ℚ), 1)].take (searchK stW 5)).filter
          (passesB stW none none)).map (mkCand stW))).take 5 :=
  query_dedup_topk_first_wins stW [((1 : ℚ), 0), ((1 : ℚ), 1)] none none 5 _
    (by decide) rfl

theorem addExperience_shape (emb : Emb) (e : Experience) :
    (createExperienceDocument e = [] ∧
      ∀ st, addExperience emb st e =
        (.ok st, [("Empty document for experience ").data ++ e.id])) ∨
    (∃ msg, emb (textsOf e) = .error msg ∧
      ∀ st, addExperience emb st e =
        (.error msg, [("Failed to add experience: ").data ++ msg])) ∨
    (createExperienceDocument e ≠ [] ∧ emb (textsOf e) = .ok () ∧
      ∀ st, addExperience emb st e = (.ok (addNewState st e),
        [("Index saved to disk").data,
         ("Added experience ").data ++ e.id ++ (" with ").data ++
           (toString (chunkDocumentSettings (createExperienceDocument e)
             e.id).length).data ++ (" chunks").data])) := by
  by_cases hdoc : createExperienceDocument e = []
  · exact Or.inl ⟨hdoc, fun st => by simp [addExperience, hdoc]⟩
  · cases hemb : emb (textsOf e) with
    | error msg =>
      refine Or.inr (Or.inl ⟨msg, rfl, fun st => ?_⟩)
      simp [addExperience, hdoc, hemb]
    | ok u =>
      cases u
      refine Or.inr (Or.inr ⟨hdoc, rfl, fun st => ?_⟩)
      simp [addExperience, hdoc, hemb]

theorem isPrefixOf_append_self : ∀ (p t : Str), p.isPrefixOf (p ++ t) = true := by
  intro p
  induction p with
  | nil => intro t; simp
  | cons a as ih => intro t; simp [ih]

theorem failPre_not_prefix_lit (lit : Str) (i : Nat) (hi : i < failPre.length)
    (hlen : i < lit.length) (hne : failPre[i]? ≠ lit[i]?) (rest : Str) :
    failPre.isPrefixOf (lit ++ rest) = false := by
  refine isPrefixOf_false_of_ne_at _ _ i hi ?_
  rw [List.getElem?_append_left hlen]
  exact hne

theorem reindexFold_fst_filter (emb : Emb) :
    ∀ (exps : List Experience) (st : PipelineState) (l1 l2 : List Str),
      (exps.foldl (reindexStep emb) (st, l1)).1 =
      ((exps.filter (fun e => addOk emb e)).foldl (reindexStep emb) (st, l2)).1 := by
  intro exps
  induction exps with
  | nil => intro st l1 l2; rfl
  | cons e rest ih =>
    intro st l1 l2
    rcases addExperience_shape emb e with ⟨hdoc, hstep⟩ | ⟨msg, hemb, hstep⟩ |
      ⟨hdoc, hemb, hstep⟩
    · have hok : addOk emb e = true := by simp [addOk, hstep emptyState]
      rw [List.filter_cons, if_pos (by rw [hok])]
      rw [List.foldl_cons, List.foldl_cons]
      rw [show reindexStep emb (st, l1) e = (st, l1 ++
        [("Empty document for experience ").data ++ e.id]) from by
        simp [reindexStep, hstep st]]
      rw [show reindexStep emb (st, l2) e = (st, l2 ++
        [("Empty document for experience ").data ++ e.id]) from by
        simp [reindexStep, hstep st]]
      exact ih st _ _
    · have hok : addOk emb e = false := by simp [addOk, hstep emptyState]
      rw [List.filter_cons, if_neg (by rw [hok]; exact Bool.false_ne_true)]
      rw [List.foldl_cons]
      rw [show reindexStep emb (st, l1) e = (st, l1 ++
          [("Failed to add experience: ").data ++ msg] ++
          [("Failed to index experience ").data ++ e.id ++ (": ").data ++ msg])
        from by simp [reindexStep, hstep st]]
      exact ih st _ _
    · have hok : addOk emb e = true := by simp [addOk, hstep emptyState]
      rw [List.filter_cons, if_pos (by rw [hok])]
      rw [List.foldl_cons, List.foldl_cons]
      rw [show reindexStep emb (st, l1) e = (addNewState st e, l1 ++
          [("Index saved to disk").data,
           ("Added experience ").data ++ e.id ++ (" with ").data ++
             (toString (chunkDocumentSettings (createExperienceDocument e)
               e.id).length).data ++ (" chunks").data]) from by
        simp [reindexStep, hstep st]]
      rw [show reindexStep emb (st, l2) e = (addNewState st e, l2 ++
          [("Index saved to disk").data,
           ("Added experience ").data ++ e.id ++ (" with ").data ++
             (toString (chunkDocumentSettings (createExperienceDocument e)
               e.id).length).data ++ (" chunks").data]) from by
        simp [reindexStep, hstep st]]
      exact ih (addNewState st e) _ _

theorem notPrefix_of_isPrefixOf_false (p l : Str) (h : p.isPrefixOf l = false) :
    ¬ p <+: l := by
  rw [← List.isPrefixOf_iff_prefix, h]
  exact Bool.false_ne_true

theorem reindexFold_fail_count (emb : Emb) :
    ∀ (exps : List Experience) (st : PipelineState) (logs : List Str),
      (((exps.foldl (reindexStep emb) (st, logs)).2).filter
          (fun m => failPre.isPrefixOf m)).length =
        (logs.filter (fun m => failPre.isPrefixOf m)).length +
          (exps.filter (fun e => !(addOk emb e))).length := by
  intro exps
  induction exps with
  | nil => intro st logs; simp
  | cons e rest ih =>
    intro st logs
    rw [List.foldl_cons, List.filter_cons]
    rcases addExperience_shape emb e with ⟨hdoc, hstep⟩ | ⟨msg, hemb, hstep⟩ |
      ⟨hdoc, hemb, hstep⟩
    · have hok : addOk emb e = true := by simp [addOk, hstep emptyState]
      rw [show reindexStep emb (st, logs) e = (st, logs ++
        [("Empty document for experience ").data ++ e.id]) from by
        simp [reindexStep, hstep st]]
      rw [ih st _, List.filter_append, List.length_append]
      rw [List.filter_cons, if_neg (by
        rw [failPre_not_prefix_lit _ 0 (by decide) (by decide) (by decide) e.id]
        exact Bool.false_ne_true)]
      rw [List.filter_nil]
      rw [if_neg (by rw [hok]; decide)]
      simp
    · have hok : addOk emb e = false := by simp [addOk, hstep emptyState]
      rw [show reindexStep emb (st, logs) e = (st, logs ++
          [("Failed to add experience: ").data ++ msg] ++
          [("Failed to index experience ").data ++ e.id ++ (": ").data ++ msg])
        from by simp [reindexStep, hstep st]]
      rw [ih st _, List.filter_append, List.length_append,
        List.filter_append, List.length_append]
      rw [List.filter_cons, if_neg (by
        rw [failPre_not_prefix_lit _ 10 (by decide) (by decide) (by decide) msg]
        exact Bool.false_ne_true)]
      rw [List.filter_nil]
      have hfidx : failPre.isPrefixOf
          (("Failed to index experience ").data ++ e.id ++ (": ").data ++ msg)
          = true := by
        have hassoc : ("Failed to index experience ").data ++ e.id ++
            (": ").data ++ msg = ("Failed to index experience ").data ++
            (e.id ++ ((": ").data ++ msg)) := by
          simp [List.append_assoc]
        rw [hassoc]
        exact isPrefixOf_append_self failPre _
      rw [List.filter_cons, if_pos hfidx, List.filter_nil]
      rw [if_pos (by rw [hok]; decide)]
      simp only [List.length_cons, List.length_nil, List.length_singleton]
      omega
    · have hok : addOk emb e = true := by simp [addOk, hstep emptyState]
      rw [show reindexStep emb (st, logs) e = (addNewState st e, logs ++
          [("Index saved to disk").data,
           ("Added experience ").data ++ e.id ++ (" with ").data ++
             (toString (chunkDocumentSettings (createExperienceDocument e)
               e.id).length).data ++ (" chunks").data]) from by
        simp [reindexStep, hstep st]]
      rw [ih (addNewState st e) _, List.filter_append, List.length_append]
      rw [List.filter_cons, if_neg (by decide)]
      have hadded : failPre.isPrefixOf
          (("Added experience ").data ++ e.id ++ (" with ").data ++
            (toString (chunkDocumentSettings (createExperienceDocument e)
              e.id).length).data ++ (" chunks").data) = false := by
        have hassoc : ("Added experience ").data ++ e.id ++ (" with ").data ++
            (toString (chunkDocumentSettings (createExperienceDocument e)
              e.id).length).data ++ (" chunks").data =
            ("Added experience ").data ++ (e.id ++ ((" with ").data ++
              ((toString (chunkDocumentSettings (createExperienceDocument e)
                e.id).length).data ++ (" chunks").data))) := by
          simp [List.append_assoc]
        rw [hassoc]
        exact failPre_not_prefix_lit _ 0 (by decide) (by decide) (by decide) _
      rw [List.filter_cons, if_neg (by rw [hadded]; exact Bool.false_ne_true)]
      rw [List.filter_nil]
      rw [if_neg (by rw [hok]; decide)]
      simp

/-- C9, amended: a per-record failure inside `reindex_all` is isolated —
the failing record contributes nothing to the final index state, which
equals the state obtained from the successfully indexable records alone,
and the loop completes instead of aborting; each failure is logged with
its own `Failed to index experience ...` message (exactly one per failed
record), but no aggregate count of failed records is reported anywhere. -/
theorem reindex_isolates_failures (emb : Emb) (exps : List Experience) :
    (reindexAll emb exps).1 =
      (reindexAll emb (exps.filter (fun e => addOk emb e))).1 ∧
    ((reindexAll emb exps).2.filter (fun m => failPre.isPrefixOf m)).length =
      (exps.filter (fun e => !(addOk emb e))).length := by
  constructor
  · simp only [reindexAll]
    exact reindexFold_fst_filter emb exps emptyState _ _
  · simp only [reindexAll]
    rw [List.filter_append, List.length_append,
      reindexFold_fail_count emb exps emptyState _]
    have hfound : failPre.isPrefixOf (("Found ").data ++
        (toString exps.length).data ++ (" experiences to index").data) = false := by
      have hassoc : ("Found ").data ++ (toString exps.length).data ++
          (" experiences to index").data = ("Found ").data ++
          ((toString exps.length).data ++ (" experiences to index").data) := by
        simp [List.append_assoc]
      rw [hassoc]
      exact failPre_not_prefix_lit _ 1 (by decide) (by decide) (by decide) _
    rw [List.filter_cons, if_neg (by decide)]
    rw [List.filter_cons, if_neg (by decide)]
    rw [List.filter_cons, if_neg (by rw [hfound]; exact Bool.false_ne_true)]
    rw [List.filter_nil]
    rw [List.filter_cons, if_neg (by decide)]
    rw [List.filter_cons, if_neg (by
      rw [failPre_not_prefix_lit (("Reindex complete. Total vectors: ").data)
        0 (by decide) (by decide) (by decide) _]
      exact Bool.false_ne_true)]
    rw [List.filter_nil]
    simp

/-- C9, counterexample: on a two-record input whose second record fails
to embed, `reindex_all` completes with the first record indexed and the
second skipped, and emits exactly one per-record failure log; yet the
character `1` — the count of failed records — occurs in no log message:
the operation reports per-record failures and the final vector total,
but never the count of failures the claim requires. -/
theorem reindex_reports_no_failure_count :
    (((reindexAll c9emb [c9rA, c9rB]).2).filter
      (fun m => failPre.isPrefixOf m)).length = 1 ∧
    (reindexAll c9emb [c9rA, c9rB]).1.metadata (("rA").data) ≠ none ∧
    (reindexAll c9emb [c9rA, c9rB]).1.metadata (("rB").data) = none ∧
    ∀ m ∈ (reindexAll c9emb [c9rA, c9rB]).2, ¬ '1' ∈ m := by decide
